import Mathlib

set_option maxHeartbeats 1000000

/-!
Verification development for the request-orchestration core of the
smart-textarea library.

The embedding covers:
* the completion cache (`src/utils/cache.ts`, class `CompletionCache`);
* the smart trigger engine (`useSmartTrigger`, in `src/hooks/useAutocomplete.ts`);
* the request/response phases of `useOptimizedAutocomplete.requestCompletion`
  (also in `src/hooks/useAutocomplete.ts`).

Modelling conventions:
* JavaScript strings are `List Char`; `Date.now()` timestamps are `Nat`
  values that the caller passes explicitly (the code is single-threaded, so
  every read of the clock during one synchronous block is one `now`);
* the JavaScript `Map` is an insertion-ordered association list, with
  `Map.get` / `Map.set` / `Map.delete` and first-key iteration modelled by
  `mapGet` / `mapSet` / `mapDelete` / `List.head?`;
* React `useState` setters become explicit record updates on an explicit
  state record; an `async` function body is split at its single `await`
  into an issue phase and a settle phase;
* JavaScript truthiness on strings (`if (oldestKey)`, `if (exact)`,
  `if (cached)`, `entry.completion &&`) is modelled by an explicit
  emptiness test, and truthiness on `undefined` by `Option`.
-/

/-- Lookup in a JavaScript `Map` (`Map.get`): the value of the first binding
whose key matches, or `none`. -/
def mapGet {α β : Type} [DecidableEq α] (m : List (α × β)) (k : α) : Option β :=
  match m with
  | [] => none
  | (k1, v1) :: rest => if k1 = k then some v1 else mapGet rest k

/-- Update in a JavaScript `Map` (`Map.set`): replaces the first binding with
a matching key in place (preserving its insertion position), otherwise
appends a fresh binding at the end. -/
def mapSet {α β : Type} [DecidableEq α] (m : List (α × β)) (k : α) (v : β) :
    List (α × β) :=
  match m with
  | [] => [(k, v)]
  | (k1, v1) :: rest => if k1 = k then (k, v) :: rest else (k1, v1) :: mapSet rest k v

/-- Deletion in a JavaScript `Map` (`Map.delete`): removes the first binding
with a matching key, if any. -/
def mapDelete {α β : Type} [DecidableEq α] (m : List (α × β)) (k : α) :
    List (α × β) :=
  match m with
  | [] => []
  | (k1, v1) :: rest => if k1 = k then rest else (k1, v1) :: mapDelete rest k

/-- The JavaScript whitespace class used by both `String.prototype.trim` and
the regular-expression class `\s`. -/
def isJsSpace (c : Char) : Bool :=
  c == '\t' || c == '\n' || c == '\x0b' || c == '\x0c' || c == '\r' || c == ' ' ||
  c == '\xa0' || c == ' ' ||
  (decide (' ' ≤ c) && decide (c ≤ ' ')) ||
  c == ' ' || c == ' ' || c == ' ' || c == ' ' ||
  c == '　' || c == '﻿'

/-- JavaScript `String.prototype.trim`: drop whitespace from both ends. -/
def trim (s : List Char) : List Char :=
  ((s.dropWhile isJsSpace).reverse.dropWhile isJsSpace).reverse

/-- The window `text.substring(Math.max(0, cursorPosition - 200), cursorPosition)`
of `cache.ts`: the (at most 200) characters immediately before the cursor. -/
def windowBefore (text : List Char) (cursorPosition : Nat) : List Char :=
  (text.take cursorPosition).drop (cursorPosition - 200)

/-- `CompletionCache.generateKey` (`cache.ts`): the trimmed window of the
last 200 characters before the cursor. -/
def generateKey (text : List Char) (cursorPosition : Nat) : List Char :=
  trim (windowBefore text cursorPosition)

/-- `CacheEntry` of `cache.ts`. -/
structure CacheEntry where
  completion : List Char
  timestamp : Nat
deriving DecidableEq, Repr

/-- The state of a `CompletionCache` instance (`cache.ts`): the backing
`Map` in insertion order plus the construction parameters. -/
structure CompletionCache where
  cache : List (List Char × CacheEntry)
  maxSize : Nat
  ttl : Nat
deriving DecidableEq, Repr

/-- A cache as built by `new CompletionCache(maxSize, ttlMs)`. -/
def CompletionCache.empty (maxSize ttl : Nat) : CompletionCache :=
  { cache := [], maxSize := maxSize, ttl := ttl }

/-- `CompletionCache.get` (`cache.ts`): exact key lookup; an entry older
than `ttl` is treated as absent and deleted eagerly on the read.  Returns
the result together with the (possibly mutated) cache. -/
def CompletionCache.get (c : CompletionCache) (now : Nat)
    (text : List Char) (cursorPosition : Nat) :
    Option (List Char) × CompletionCache :=
  let key := generateKey text cursorPosition
  match mapGet c.cache key with
  | none => (none, c)
  | some entry =>
    if c.ttl < now - entry.timestamp then
      (none, { c with cache := mapDelete c.cache key })
    else
      (some entry.completion, c)

/-- `CompletionCache.set` (`cache.ts`).  When the map is at (or beyond)
capacity the code reads the first inserted key and runs
`if (oldestKey) { delete }`; the truthiness test means an empty-string
oldest key (and the `undefined` of an empty map) is *not* deleted. -/
def CompletionCache.set (c : CompletionCache) (now : Nat)
    (text : List Char) (cursorPosition : Nat) (completion : List Char) :
    CompletionCache :=
  let key := generateKey text cursorPosition
  let cache1 :=
    if c.maxSize ≤ c.cache.length then
      match c.cache.head? with
      | some (oldestKey, _) => if oldestKey = [] then c.cache else mapDelete c.cache oldestKey
      | none => c.cache
    else c.cache
  { c with cache := mapSet cache1 key { completion := completion, timestamp := now } }

/-- `CompletionCache.clear` (`cache.ts`). -/
def CompletionCache.clear (c : CompletionCache) : CompletionCache :=
  { c with cache := [] }

/-- The `for (const [cachedKey, entry] of this.cache.entries())` loop of
`CompletionCache.getByPrefix` (`cache.ts`): skip expired entries; for a
live entry whose key is a prefix of the current key and whose completion
is non-empty, if the completion starts with the extra text typed since
that key was cached, return the unconsumed suffix; otherwise continue. -/
def scanEntries (entries : List (List Char × CacheEntry)) (key : List Char)
    (now ttl : Nat) : Option (List Char) :=
  match entries with
  | [] => none
  | (cachedKey, entry) :: rest =>
    if ttl < now - entry.timestamp then scanEntries rest key now ttl
    else if cachedKey <+: key ∧ entry.completion ≠ [] then
      (let extraTyped := key.drop cachedKey.length
       if extraTyped <+: entry.completion then
         some (entry.completion.drop extraTyped.length)
       else scanEntries rest key now ttl)
    else scanEntries rest key now ttl

/-- `CompletionCache.getByPrefix` (`cache.ts`); renamed here because of a
naming restriction of this development.  It first tries the exact `get`
(whose eager eviction mutates the map); `if (exact) return exact` is a
truthiness test, so an empty-string exact hit falls through to the prefix
scan, exactly like a miss. -/
def CompletionCache.getByPrefixLookup (c : CompletionCache) (now : Nat)
    (text : List Char) (cursorPosition : Nat) :
    Option (List Char) × CompletionCache :=
  let key := generateKey text cursorPosition
  let res := CompletionCache.get c now text cursorPosition
  match res.1 with
  | some v =>
    if v = [] then (scanEntries res.2.cache key now c.ttl, res.2)
    else (some v, res.2)
  | none => (scanEntries res.2.cache key now c.ttl, res.2)

/-- The decision produced by one `checkTrigger` call of `useSmartTrigger`:
return without doing anything (suppress), call `onTrigger` synchronously
(fire now), or arm the pause timer (fire after the pause threshold). -/
inductive TriggerDecision where
  | suppress : TriggerDecision
  | fireNow : TriggerDecision
  | fireAfter (delayMs : Nat) : TriggerDecision
deriving DecidableEq, Repr

/-- The data captured by the `setTimeout` closure armed by `checkTrigger`:
the observation it would fire for and the breakpoint flag computed at
arming time. -/
structure PauseTimer where
  text : List Char
  cursorPosition : Nat
  isAtBreakpoint : Bool
deriving DecidableEq, Repr

/-- `TriggerState` of `useSmartTrigger` (`stateRef.current`). -/
structure TriggerState where
  lastKeyTime : Nat
  lastTriggerTime : Nat
  lastText : List Char
  pauseTimer : Option PauseTimer
deriving DecidableEq, Repr

/-- The options of `useSmartTrigger` after defaulting. -/
structure TriggerConfig where
  pauseThreshold : Nat
  minChars : Nat
  triggerAtBreakpoints : Bool
  cooldown : Nat
deriving DecidableEq, Repr

/-- The initial `stateRef.current` of `useSmartTrigger`, also produced by
its `reset`. -/
def initialTriggerState : TriggerState :=
  { lastKeyTime := 0, lastTriggerTime := 0, lastText := [], pauseTimer := none }

/-- The breakpoint character class `[\s.,!?;:\n]` of `useSmartTrigger`. -/
def isBreakChar (c : Char) : Bool :=
  isJsSpace c || c == '.' || c == ',' || c == '!' || c == '?' || c == ';' || c == ':'

/-- `useSmartTrigger.checkTrigger` (`src/hooks/useAutocomplete.ts`).
Every call first cancels the pending pause timer and records the key
time; then the guards run in source order: minimum length, empty
text-before-cursor, the no-op-edit/cooldown guard, the immediate
sentence-end fire, and otherwise arming of the pause timer.  The decision
reports which of the three outcomes the call took. -/
def checkTrigger (cfg : TriggerConfig) (st : TriggerState) (now : Nat)
    (text : List Char) (cursorPosition : Nat) :
    TriggerDecision × TriggerState :=
  if text.length < cfg.minChars then
    (.suppress, { st with pauseTimer := none, lastKeyTime := now })
  else
    match (text.take cursorPosition).getLast? with
    | none => (.suppress, { st with pauseTimer := none, lastKeyTime := now })
    | some lastChar =>
      if ¬(text ≠ st.lastText) ∨
          (¬(3 < ((text.length : Int) - (st.lastText.length : Int)).natAbs) ∧
           ¬(cfg.cooldown < now - st.lastTriggerTime)) then
        (.suppress, { st with pauseTimer := none, lastKeyTime := now })
      else if lastChar ∈ ['.', '!', '?'] ∧ st.lastText.getLast? ≠ some lastChar then
        (.fireNow,
         { st with pauseTimer := none, lastKeyTime := now,
                   lastText := text, lastTriggerTime := now })
      else
        (.fireAfter cfg.pauseThreshold,
         { st with lastKeyTime := now,
                   pauseTimer := some { text := text, cursorPosition := cursorPosition,
                                        isAtBreakpoint := isBreakChar lastChar } })

/-- The `setTimeout` callback armed by `checkTrigger`, run at clock time
`nowCb`: it fires (returns `true` and records `lastText` /
`lastTriggerTime`) only if the user has actually paused since the last
keystroke and, when breakpoints are required, the armed observation ended
at a breakpoint. -/
def firePauseTimer (cfg : TriggerConfig) (st : TriggerState) (tm : PauseTimer)
    (nowCb : Nat) : Bool × TriggerState :=
  if cfg.pauseThreshold - 50 ≤ nowCb - st.lastKeyTime then
    if cfg.triggerAtBreakpoints && !tm.isAtBreakpoint then (false, st)
    else (true, { st with lastText := tm.text, lastTriggerTime := nowCb })
  else (false, st)

/-- The `name` discriminating JavaScript `Error`s in the catch blocks. -/
structure JSError where
  name : List Char
  message : List Char
deriving DecidableEq, Repr

/-- The error name the catch block of `requestCompletion` suppresses. -/
def abortErrorName : List Char := "AbortError".toList

/-- The session-relevant state of `useOptimizedAutocomplete`: the
`completion` / `isLoading` / `error` React state, the `currentRequestRef`
used for the staleness check, and the shared `completionCache` singleton.
The pure statistics counters (`apiCalls`, `cacheHits`, `tokensUsed`) are
observational only and are not modelled. -/
structure OrchestratorState where
  completion : Option (List Char)
  isLoading : Bool
  error : Option JSError
  currentRequest : Option (List Char × Nat)
  cache : CompletionCache
deriving DecidableEq, Repr

/-- The initial state of `useOptimizedAutocomplete` with a fresh cache. -/
def initialOrchestratorState (maxSize ttl : Nat) : OrchestratorState :=
  { completion := none, isLoading := false, error := none,
    currentRequest := none, cache := CompletionCache.empty maxSize ttl }

/-- The dispatch tail of `requestCompletion` (after the cache check): abort
the previous request (cooperative; has no state effect here), record the
request as current, raise the pending flag, clear the error. -/
def startNetwork (s : OrchestratorState) (text : List Char)
    (cursorPosition : Nat) : OrchestratorState :=
  { s with currentRequest := some (text, cursorPosition),
           isLoading := true, error := none }

/-- The synchronous prefix of `useOptimizedAutocomplete.requestCompletion`,
up to the `await provider.complete(...)`: the enabled/provider guard, the
cache-first `getByPrefix` check (with `if (cached)` truthiness, so an
empty-string cache result is treated as a miss), and on a miss the dispatch
of a network request. -/
def requestStart (providerAvailable enabled enableCache : Bool) (now : Nat)
    (s : OrchestratorState) (text : List Char) (cursorPosition : Nat) :
    OrchestratorState :=
  if !providerAvailable || !enabled then s
  else if enableCache then
    match CompletionCache.getByPrefixLookup s.cache now text cursorPosition with
    | (some cached, cache1) =>
      if cached = [] then startNetwork { s with cache := cache1 } text cursorPosition
      else { s with completion := some cached, cache := cache1 }
    | (none, cache1) => startNetwork { s with cache := cache1 } text cursorPosition
  else startNetwork s text cursorPosition

/-- The resolution path of `requestCompletion` for the request issued with
observation `(text, cursorPosition)`: if the request is still the current
one, normalize the completion (`response.completion?.trim() || null`),
publish it, and (when caching is enabled and the completion is non-empty)
insert it into the cache; a stale response skips all of that.  The
`finally` block lowers the pending flag unconditionally. -/
def settleSuccess (enableCache : Bool) (now : Nat) (s : OrchestratorState)
    (text : List Char) (cursorPosition : Nat)
    (respCompletion : Option (List Char)) : OrchestratorState :=
  let s1 :=
    if s.currentRequest = some (text, cursorPosition) then
      let completionText : Option (List Char) :=
        match respCompletion with
        | none => none
        | some r => if trim r = [] then none else some (trim r)
      let s2 := { s with completion := completionText }
      match completionText with
      | some ct =>
        if enableCache then
          { s2 with cache := CompletionCache.set s2.cache now text cursorPosition ct }
        else s2
      | none => s2
    else s
  { s1 with isLoading := false }

/-- The rejection path of `requestCompletion`: the catch block records the
error and clears the suggestion unless the error is an `AbortError`; the
`finally` block lowers the pending flag unconditionally. -/
def settleFailure (s : OrchestratorState) (err : JSError) : OrchestratorState :=
  let s1 :=
    if err.name ≠ abortErrorName then
      { s with error := some err, completion := none }
    else s
  { s1 with isLoading := false }

/-- The acceptance condition of one iteration of the `getByPrefix` scan
loop, for a binding `p` against the current derived key: the entry is
live, its key is a prefix of the current key, its completion is non-empty,
and the completion starts with the extra text typed since it was cached. -/
def qualifies (key : List Char) (now ttl : Nat) (p : List Char × CacheEntry) : Prop :=
  now - p.2.timestamp ≤ ttl ∧ p.1 <+: key ∧ p.2.completion ≠ [] ∧
  (key.drop p.1.length) <+: p.2.completion

instance (key : List Char) (now ttl : Nat) (p : List Char × CacheEntry) :
    Decidable (qualifies key now ttl p) := by
  unfold qualifies; infer_instance

/-! ### Association-list lemmas for the `Map` model -/

theorem mapGet_mapSet_self {α β : Type} [DecidableEq α] (m : List (α × β)) (k : α) (v : β) :
    mapGet (mapSet m k v) k = some v := by
  induction m with
  | nil => simp [mapSet, mapGet]
  | cons hd tl ih =>
    obtain ⟨k1, v1⟩ := hd
    by_cases h : k1 = k
    · simp [mapSet, mapGet, h]
    · simp [mapSet, mapGet, h, ih]

theorem mapGet_mapDelete_ne {α β : Type} [DecidableEq α] (m : List (α × β)) (kd k : α)
    (h : kd ≠ k) : mapGet (mapDelete m kd) k = mapGet m k := by
  induction m with
  | nil => simp [mapDelete]
  | cons hd tl ih =>
    obtain ⟨k1, v1⟩ := hd
    by_cases h1 : k1 = kd
    · subst h1
      simp [mapDelete, mapGet, h]
    · by_cases h2 : k1 = k
      · subst h2
        simp [mapDelete, mapGet, h1]
      · simp [mapDelete, mapGet, h1, h2, ih]

theorem mapDelete_sublist {α β : Type} [DecidableEq α] (m : List (α × β)) (k : α) :
    (mapDelete m k).Sublist m := by
  induction m with
  | nil => simp [mapDelete]
  | cons hd tl ih =>
    obtain ⟨k1, v1⟩ := hd
    by_cases h : k1 = k
    · simp only [mapDelete, if_pos h]
      exact List.sublist_cons_self (k1, v1) tl
    · simp only [mapDelete, if_neg h]
      exact List.Sublist.cons₂ (k1, v1) ih

theorem mem_mapDelete_of_ne {α β : Type} [DecidableEq α] (m : List (α × β)) (k : α)
    (k1 : α) (v1 : β) (hmem : (k1, v1) ∈ m) (hne : k1 ≠ k) :
    (k1, v1) ∈ mapDelete m k := by
  induction m with
  | nil => simp at hmem
  | cons hd tl ih =>
    obtain ⟨k2, v2⟩ := hd
    by_cases h2 : k2 = k
    · subst h2
      rcases List.mem_cons.mp hmem with heq | htl
      · exact absurd (Prod.ext_iff.mp heq).1 hne
      · simp [mapDelete]
        exact htl
    · rcases List.mem_cons.mp hmem with heq | htl
      · simp only [mapDelete, if_neg h2]
        rw [heq]
        exact List.mem_cons_self _ _
      · simp only [mapDelete, if_neg h2]
        exact List.mem_cons_of_mem _ (ih htl)

theorem mapGet_isSome_of_mem {α β : Type} [DecidableEq α] (m : List (α × β)) (k : α)
    (v : β) (hmem : (k, v) ∈ m) : (mapGet m k).isSome = true := by
  induction m with
  | nil => simp at hmem
  | cons hd tl ih =>
    obtain ⟨k1, v1⟩ := hd
    by_cases h1 : k1 = k
    · simp [mapGet, h1]
    · rcases List.mem_cons.mp hmem with heq | htl
      · exact absurd (Prod.ext_iff.mp heq).1 (fun h => h1 h.symm)
      · simp only [mapGet, if_neg h1]
        exact ih htl

theorem mapGet_eq_none_of_not_mem_keys {α β : Type} [DecidableEq α]
    (m : List (α × β)) (k : α) (h : k ∉ m.map Prod.fst) : mapGet m k = none := by
  induction m with
  | nil => rfl
  | cons hd tl ih =>
    obtain ⟨k1, v1⟩ := hd
    simp only [List.map_cons, List.mem_cons] at h
    push_neg at h
    simp only [mapGet, if_neg (Ne.symm h.1)]
    exact ih h.2

theorem mapGet_eq_some_of_mem_nodup {α β : Type} [DecidableEq α] (m : List (α × β))
    (k : α) (v : β) (hnd : (m.map Prod.fst).Nodup) (hmem : (k, v) ∈ m) :
    mapGet m k = some v := by
  induction m with
  | nil => simp at hmem
  | cons hd tl ih =>
    obtain ⟨k1, v1⟩ := hd
    simp only [List.map_cons, List.nodup_cons] at hnd
    rcases List.mem_cons.mp hmem with heq | htl
    · obtain ⟨h1, h2⟩ := Prod.ext_iff.mp heq
      simp only [mapGet, if_pos h1.symm]
      exact congrArg some h2.symm
    · have hk : k1 ≠ k := by
        intro h
        apply hnd.1
        rw [h]
        exact List.mem_map.mpr ⟨(k, v), htl, rfl⟩
      simp only [mapGet, if_neg hk]
      exact ih hnd.2 htl

theorem mapGet_mapDelete_self_nodup {α β : Type} [DecidableEq α] (m : List (α × β))
    (k : α) (hnd : (m.map Prod.fst).Nodup) : mapGet (mapDelete m k) k = none := by
  induction m with
  | nil => rfl
  | cons hd tl ih =>
    obtain ⟨k1, v1⟩ := hd
    simp only [List.map_cons, List.nodup_cons] at hnd
    by_cases h1 : k1 = k
    · subst h1
      simp only [mapDelete, if_pos rfl]
      exact mapGet_eq_none_of_not_mem_keys tl k1 hnd.1
    · simp only [mapDelete, if_neg h1, mapGet, if_neg h1]
      exact ih hnd.2

theorem length_mapDelete_of_isSome {α β : Type} [DecidableEq α] (m : List (α × β))
    (k : α) (h : (mapGet m k).isSome = true) :
    (mapDelete m k).length + 1 = m.length := by
  induction m with
  | nil => simp [mapGet] at h
  | cons hd tl ih =>
    obtain ⟨k1, v1⟩ := hd
    by_cases h1 : k1 = k
    · simp [mapDelete, h1]
    · simp only [mapGet, if_neg h1] at h
      simp only [mapDelete, if_neg h1, List.length_cons]
      rw [← ih h]

theorem length_mapSet_of_isSome {α β : Type} [DecidableEq α] (m : List (α × β))
    (k : α) (v : β) (h : (mapGet m k).isSome = true) :
    (mapSet m k v).length = m.length := by
  induction m with
  | nil => simp [mapGet] at h
  | cons hd tl ih =>
    obtain ⟨k1, v1⟩ := hd
    by_cases h1 : k1 = k
    · simp [mapSet, h1]
    · simp only [mapGet, if_neg h1] at h
      simp only [mapSet, if_neg h1, List.length_cons]
      rw [ih h]

theorem mem_keys_mapSet {α β : Type} [DecidableEq α] (m : List (α × β)) (k a : α)
    (v : β) (h : a ∈ (mapSet m k v).map Prod.fst) :
    a = k ∨ a ∈ m.map Prod.fst := by
  induction m with
  | nil => simpa [mapSet] using h
  | cons hd tl ih =>
    obtain ⟨k1, v1⟩ := hd
    by_cases h1 : k1 = k
    · subst h1
      simpa [mapSet] using h
    · simp only [mapSet, if_neg h1, List.map_cons, List.mem_cons] at h
      rcases h with h | h
      · right; simp [h]
      · rcases ih h with h | h
        · left; exact h
        · right; simp [h]

theorem nodup_keys_mapSet {α β : Type} [DecidableEq α] (m : List (α × β)) (k : α)
    (v : β) (hnd : (m.map Prod.fst).Nodup) : ((mapSet m k v).map Prod.fst).Nodup := by
  induction m with
  | nil => simp [mapSet]
  | cons hd tl ih =>
    obtain ⟨k1, v1⟩ := hd
    simp only [List.map_cons, List.nodup_cons] at hnd
    by_cases h1 : k1 = k
    · subst h1
      simpa [mapSet] using hnd
    · simp only [mapSet, if_neg h1, List.map_cons, List.nodup_cons]
      refine ⟨fun hmem => ?_, ih hnd.2⟩
      rcases mem_keys_mapSet tl k k1 v hmem with h | h
      · exact h1 h
      · exact hnd.1 h

theorem nodup_keys_mapDelete {α β : Type} [DecidableEq α] (m : List (α × β)) (k : α)
    (hnd : (m.map Prod.fst).Nodup) : ((mapDelete m k).map Prod.fst).Nodup :=
  List.Nodup.sublist (List.Sublist.map Prod.fst (mapDelete_sublist m k)) hnd

/-! ### Lemmas about `dropWhile` and `trim` -/

theorem dropWhile_append_of_all {α : Type} (p : α → Bool) (xs ys : List α)
    (h : ∀ x ∈ xs, p x = true) :
    (xs ++ ys).dropWhile p = ys.dropWhile p := by
  induction xs with
  | nil => simp
  | cons a tl ih =>
    have ha := h a (List.mem_cons_self a tl)
    simp only [List.cons_append, List.dropWhile_cons, ha, if_true]
    exact ih (fun x hx => h x (List.mem_cons_of_mem a hx))

theorem dropWhile_append_of_ne_nil {α : Type} (p : α → Bool) (xs ys : List α)
    (h : xs.dropWhile p ≠ []) :
    (xs ++ ys).dropWhile p = xs.dropWhile p ++ ys := by
  induction xs with
  | nil => simp at h
  | cons a tl ih =>
    by_cases hp : p a
    · simp only [List.dropWhile_cons, hp, if_true] at h
      simp only [List.cons_append, List.dropWhile_cons, hp, if_true]
      exact ih h
    · simp only [List.cons_append, List.dropWhile_cons, hp]
      simp [hp]

theorem dropWhile_eq_nil_of_all {α : Type} (p : α → Bool) (xs : List α)
    (h : ∀ x ∈ xs, p x = true) : xs.dropWhile p = [] := by
  induction xs with
  | nil => rfl
  | cons a tl ih =>
    simp only [List.dropWhile_cons, h a (List.mem_cons_self a tl), if_true]
    exact ih (fun x hx => h x (List.mem_cons_of_mem a hx))

theorem all_of_dropWhile_eq_nil {α : Type} (p : α → Bool) (xs : List α)
    (h : xs.dropWhile p = []) : ∀ x ∈ xs, p x = true := by
  induction xs with
  | nil => simp
  | cons a tl ih =>
    by_cases hp : p a
    · simp only [List.dropWhile_cons, hp, if_true] at h
      intro x hx
      rcases List.mem_cons.mp hx with rfl | hx
      · exact hp
      · exact ih h x hx
    · simp [List.dropWhile_cons, hp] at h

theorem trim_append_left (ws s : List Char) (h : ∀ x ∈ ws, isJsSpace x = true) :
    trim (ws ++ s) = trim s := by
  unfold trim
  rw [dropWhile_append_of_all _ _ _ h]

theorem trim_append_right (s ws : List Char) (h : ∀ x ∈ ws, isJsSpace x = true) :
    trim (s ++ ws) = trim s := by
  unfold trim
  by_cases hd : s.dropWhile isJsSpace = []
  · have hs : ∀ x ∈ s, isJsSpace x = true := all_of_dropWhile_eq_nil _ _ hd
    rw [dropWhile_append_of_all _ _ _ hs, hd, dropWhile_eq_nil_of_all _ _ h]
  · rw [dropWhile_append_of_ne_nil _ _ _ hd, List.reverse_append,
      dropWhile_append_of_all _ _ _ (fun x hx => h x (List.mem_reverse.mp hx))]

theorem trim_surrounded (ws s ws2 : List Char)
    (h : ∀ x ∈ ws, isJsSpace x = true) (h2 : ∀ x ∈ ws2, isJsSpace x = true) :
    trim (ws ++ s ++ ws2) = trim s := by
  rw [trim_append_right _ _ h2, trim_append_left _ _ h]

/-! ### Cache-level helper lemmas -/

theorem cacheSet_ttl (c : CompletionCache) (now : Nat) (text : List Char)
    (pos : Nat) (comp : List Char) :
    (CompletionCache.set c now text pos comp).ttl = c.ttl := rfl

theorem cacheSet_maxSize (c : CompletionCache) (now : Nat) (text : List Char)
    (pos : Nat) (comp : List Char) :
    (CompletionCache.set c now text pos comp).maxSize = c.maxSize := rfl

theorem mapGet_cacheSet_key (c : CompletionCache) (now : Nat) (text : List Char)
    (pos : Nat) (comp : List Char) :
    mapGet (CompletionCache.set c now text pos comp).cache (generateKey text pos) =
      some { completion := comp, timestamp := now } := by
  unfold CompletionCache.set
  exact mapGet_mapSet_self _ _ _

theorem nodup_keys_cacheSet (c : CompletionCache) (now : Nat) (text : List Char)
    (pos : Nat) (comp : List Char) (hnd : (c.cache.map Prod.fst).Nodup) :
    ((CompletionCache.set c now text pos comp).cache.map Prod.fst).Nodup := by
  unfold CompletionCache.set
  apply nodup_keys_mapSet
  split
  · split
    · split
      · exact hnd
      · exact nodup_keys_mapDelete _ _ hnd
    · exact hnd
  · exact hnd

theorem get_after_set_key (c : CompletionCache) (t0 t1 : Nat)
    (text text2 : List Char) (pos pos2 : Nat) (comp : List Char)
    (hkey : generateKey text2 pos2 = generateKey text pos)
    (httl : t1 - t0 ≤ c.ttl) :
    (CompletionCache.get (CompletionCache.set c t0 text pos comp) t1 text2 pos2).1 =
      some comp := by
  unfold CompletionCache.get
  rw [hkey]
  simp only [mapGet_cacheSet_key, cacheSet_ttl]
  rw [if_neg (by omega)]

theorem get_expired (c : CompletionCache) (t1 : Nat) (text : List Char) (pos : Nat)
    (e : CacheEntry) (hval : mapGet c.cache (generateKey text pos) = some e)
    (hexp : c.ttl < t1 - e.timestamp) :
    CompletionCache.get c t1 text pos =
      (none, { c with cache := mapDelete c.cache (generateKey text pos) }) := by
  unfold CompletionCache.get
  simp only [hval, if_pos hexp]

theorem get_none_cases (c : CompletionCache) (now : Nat) (text : List Char)
    (pos : Nat) (h : (CompletionCache.get c now text pos).1 = none) :
    (mapGet c.cache (generateKey text pos) = none ∧
      (CompletionCache.get c now text pos).2 = c) ∨
    (∃ e, mapGet c.cache (generateKey text pos) = some e ∧ c.ttl < now - e.timestamp ∧
      (CompletionCache.get c now text pos).2.cache =
        mapDelete c.cache (generateKey text pos)) := by
  cases hm : mapGet c.cache (generateKey text pos) with
  | none =>
    left
    refine ⟨rfl, ?_⟩
    unfold CompletionCache.get
    simp [hm]
  | some e =>
    right
    by_cases hexp : c.ttl < now - e.timestamp
    · refine ⟨e, rfl, hexp, ?_⟩
      rw [get_expired c now text pos e hm hexp]
    · exfalso
      unfold CompletionCache.get at h
      simp [hm, hexp] at h

theorem scanEntries_cons (ck : List Char) (e : CacheEntry)
    (tl : List (List Char × CacheEntry)) (key : List Char) (now ttl : Nat) :
    scanEntries ((ck, e) :: tl) key now ttl =
      if ttl < now - e.timestamp then scanEntries tl key now ttl
      else if ck <+: key ∧ e.completion ≠ [] then
        (if (key.drop ck.length) <+: e.completion then
           some (e.completion.drop (key.drop ck.length).length)
         else scanEntries tl key now ttl)
      else scanEntries tl key now ttl := rfl

theorem scanEntries_of_exists (m : List (List Char × CacheEntry)) (key : List Char)
    (now ttl : Nat) :
    (∃ p ∈ m, qualifies key now ttl p) →
    ∃ p ∈ m, qualifies key now ttl p ∧
      scanEntries m key now ttl =
        some (p.2.completion.drop ((key.drop p.1.length).length)) := by
  induction m with
  | nil =>
    intro hex
    obtain ⟨p, hp, _⟩ := hex
    exact absurd hp (List.not_mem_nil p)
  | cons hd tl ih =>
    intro hex
    obtain ⟨ck, e⟩ := hd
    by_cases hq : qualifies key now ttl (ck, e)
    · refine ⟨(ck, e), List.mem_cons_self _ _, hq, ?_⟩
      obtain ⟨h1, h2, h3, h4⟩ := hq
      rw [scanEntries_cons, if_neg (Nat.not_lt.mpr h1), if_pos ⟨h2, h3⟩, if_pos h4]
    · have hstep : scanEntries ((ck, e) :: tl) key now ttl = scanEntries tl key now ttl := by
        rw [scanEntries_cons]
        split
        · rfl
        · rename_i hlive
          split
          · rename_i hpc
            split
            · rename_i hext
              exact absurd ⟨Nat.not_lt.mp hlive, hpc.1, hpc.2, hext⟩ hq
            · rfl
          · rfl
      obtain ⟨p, hp, hqp⟩ := hex
      rcases List.mem_cons.mp hp with heq | hptl
      · exact absurd (heq ▸ hqp) hq
      · obtain ⟨p2, hp2, hq2, heq2⟩ := ih ⟨p, hptl, hqp⟩
        exact ⟨p2, List.mem_cons_of_mem _ hp2, hq2, by rw [hstep]; exact heq2⟩

theorem settleSuccess_stale (ec : Bool) (now : Nat) (s : OrchestratorState)
    (text : List Char) (pos : Nat) (resp : Option (List Char))
    (h : ¬(s.currentRequest = some (text, pos))) :
    settleSuccess ec now s text pos resp = { s with isLoading := false } := by
  unfold settleSuccess
  rw [if_neg h]

theorem settleSuccess_current_completion (ec : Bool) (now : Nat)
    (s : OrchestratorState) (text : List Char) (pos : Nat) (r : List Char)
    (hcur : s.currentRequest = some (text, pos)) (hr : trim r ≠ []) :
    (settleSuccess ec now s text pos (some r)).completion = some (trim r) := by
  simp only [settleSuccess, hcur, if_pos, if_neg hr]
  cases ec <;> simp

theorem checkTrigger_suppress_of_lastText (cfg : TriggerConfig) (st : TriggerState)
    (now : Nat) (text : List Char) (pos : Nat) (h : st.lastText = text) :
    (checkTrigger cfg st now text pos).1 = TriggerDecision.suppress := by
  subst h
  unfold checkTrigger
  split
  · rfl
  · split
    · rfl
    · have hcond : ¬(st.lastText ≠ st.lastText) ∨
          (¬(3 < ((st.lastText.length : Int) - (st.lastText.length : Int)).natAbs) ∧
           ¬(cfg.cooldown < now - st.lastTriggerTime)) :=
        Or.inl (fun hne => hne rfl)
      rw [if_pos hcond]

theorem checkTrigger_cases (cfg : TriggerConfig) (st : TriggerState) (now : Nat)
    (text : List Char) (pos : Nat) :
    ((checkTrigger cfg st now text pos).1 = TriggerDecision.fireNow ∧
      (checkTrigger cfg st now text pos).2.lastText = text) ∨
    ((checkTrigger cfg st now text pos).1 ≠ TriggerDecision.fireNow ∧
      (checkTrigger cfg st now text pos).2.lastText = st.lastText) := by
  unfold checkTrigger
  split
  · right
    exact ⟨fun hc => TriggerDecision.noConfusion hc, rfl⟩
  · split
    · right
      exact ⟨fun hc => TriggerDecision.noConfusion hc, rfl⟩
    · split
      · right
        exact ⟨fun hc => TriggerDecision.noConfusion hc, rfl⟩
      · split
        · left
          exact ⟨rfl, rfl⟩
        · right
          exact ⟨fun hc => TriggerDecision.noConfusion hc, rfl⟩

/-! ### Claim theorems -/

/-- Claim C1, counterexample: request A for observation `("ab", 2)` is issued,
then request B for `("abcd", 4)`; when A's (stale) response arrives, the
session state is *not* left unchanged — the `finally` block of
`requestCompletion` lowers the pending flag, so `isLoading` flips from
`true` to `false`. -/
theorem claim1_stale_response_counterexample :
    (startNetwork (startNetwork (initialOrchestratorState 50 60000) ("ab".toList) 2)
        ("abcd".toList) 4).isLoading = true ∧
    (settleSuccess true 0
        (startNetwork (startNetwork (initialOrchestratorState 50 60000) ("ab".toList) 2)
          ("abcd".toList) 4) ("ab".toList) 2 (some ("zz".toList))).isLoading = false :=
  ⟨rfl, rfl⟩

/-- Claim C1 (amended): after requests A `(t1, c1)` and then B `(t2, c2)` with
`(t1, c1) ≠ (t2, c2)` are issued, A's stale response leaves `suggestion` and
`lastError` unchanged but unconditionally clears the pending flag; B's
response, matching the current in-flight observation, sets the suggestion
from the response. -/
theorem claim1_stale_response_amended (s : OrchestratorState) (t1 t2 : List Char)
    (c1 c2 : Nat) (respA : Option (List Char)) (r : List Char) (ec : Bool)
    (nA nB : Nat) (hne : (t1, c1) ≠ (t2, c2)) (hr : trim r ≠ []) :
    (settleSuccess ec nA (startNetwork (startNetwork s t1 c1) t2 c2) t1 c1 respA).completion
        = (startNetwork (startNetwork s t1 c1) t2 c2).completion ∧
    (settleSuccess ec nA (startNetwork (startNetwork s t1 c1) t2 c2) t1 c1 respA).error
        = (startNetwork (startNetwork s t1 c1) t2 c2).error ∧
    (settleSuccess ec nA (startNetwork (startNetwork s t1 c1) t2 c2) t1 c1 respA).isLoading
        = false ∧
    (settleSuccess ec nB
        (settleSuccess ec nA (startNetwork (startNetwork s t1 c1) t2 c2) t1 c1 respA)
        t2 c2 (some r)).completion = some (trim r) := by
  have hstale : ¬((startNetwork (startNetwork s t1 c1) t2 c2).currentRequest =
      some (t1, c1)) := by
    intro hcontra
    have h2 : some (t2, c2) = some (t1, c1) := hcontra
    injection h2 with h3
    exact hne h3.symm
  rw [settleSuccess_stale _ _ _ _ _ _ hstale]
  refine ⟨rfl, rfl, rfl, ?_⟩
  exact settleSuccess_current_completion ec nB _ t2 c2 r rfl hr

/-- Claim C1 amended, witnessed at a concrete run. -/
theorem claim1_stale_response_witness :
    (settleSuccess true 0
        (startNetwork (startNetwork (initialOrchestratorState 50 60000) ("ab".toList) 2)
          ("abcd".toList) 4) ("ab".toList) 2 (some ("zz".toList))).completion
      = (startNetwork (startNetwork (initialOrchestratorState 50 60000) ("ab".toList) 2)
          ("abcd".toList) 4).completion ∧
    (settleSuccess true 0
        (startNetwork (startNetwork (initialOrchestratorState 50 60000) ("ab".toList) 2)
          ("abcd".toList) 4) ("ab".toList) 2 (some ("zz".toList))).error
      = (startNetwork (startNetwork (initialOrchestratorState 50 60000) ("ab".toList) 2)
          ("abcd".toList) 4).error ∧
    (settleSuccess true 0
        (startNetwork (startNetwork (initialOrchestratorState 50 60000) ("ab".toList) 2)
          ("abcd".toList) 4) ("ab".toList) 2 (some ("zz".toList))).isLoading = false ∧
    (settleSuccess true 1
        (settleSuccess true 0
          (startNetwork (startNetwork (initialOrchestratorState 50 60000) ("ab".toList) 2)
            ("abcd".toList) 4) ("ab".toList) 2 (some ("zz".toList)))
        ("abcd".toList) 4 (some (" ok ".toList))).completion =
      some (trim (" ok ".toList)) :=
  claim1_stale_response_amended (initialOrchestratorState 50 60000) ("ab".toList)
    ("abcd".toList) 2 4 (some ("zz".toList)) (" ok ".toList) true 0 1
    (by decide) (by decide)

/-- Claim C2, counterexample: two consecutive `checkTrigger` calls with the
identical text; the first merely arms the pause timer (so `lastText` is not
recorded), and the second call again arms a delayed fire instead of
suppressing. -/
theorem claim2_second_identical_counterexample :
    (checkTrigger
        { pauseThreshold := 500, minChars := 15, triggerAtBreakpoints := true,
          cooldown := 1000 }
        (checkTrigger
          { pauseThreshold := 500, minChars := 15, triggerAtBreakpoints := true,
            cooldown := 1000 }
          initialTriggerState 0 ("hello world abcd ".toList) 17).2
        100 ("hello world abcd ".toList) 17).1 = TriggerDecision.fireAfter 500 ∧
    TriggerDecision.fireAfter 500 ≠ TriggerDecision.suppress := by
  decide

/-- Claim C2 (amended): when the first evaluation actually fired immediately
(so the engine recorded `lastObservedText`), a second evaluation carrying
the identical text always suppresses; when the first evaluation merely
armed a delayed fire, the second need not suppress. -/
theorem claim2_second_identical_amended (cfg : TriggerConfig) (st : TriggerState)
    (n1 n2 : Nat) (text : List Char) (pos1 pos2 : Nat)
    (h : (checkTrigger cfg st n1 text pos1).1 = TriggerDecision.fireNow) :
    (checkTrigger cfg (checkTrigger cfg st n1 text pos1).2 n2 text pos2).1 =
      TriggerDecision.suppress := by
  rcases checkTrigger_cases cfg st n1 text pos1 with ⟨_, h2⟩ | ⟨h1, _⟩
  · exact checkTrigger_suppress_of_lastText _ _ _ _ _ h2
  · exact absurd h h1

/-- Claim C2 amended, witnessed at a concrete run whose first call fires. -/
theorem claim2_second_identical_witness :
    (checkTrigger
        { pauseThreshold := 500, minChars := 15, triggerAtBreakpoints := true,
          cooldown := 1000 }
        (checkTrigger
          { pauseThreshold := 500, minChars := 15, triggerAtBreakpoints := true,
            cooldown := 1000 }
          initialTriggerState 0 ("hello world abcd.".toList) 17).2
        5 ("hello world abcd.".toList) 17).1 = TriggerDecision.suppress :=
  claim2_second_identical_amended
    { pauseThreshold := 500, minChars := 15, triggerAtBreakpoints := true,
      cooldown := 1000 }
    initialTriggerState 0 5 ("hello world abcd.".toList) 17 17 (by decide)

/-- Claim C3: the capacity invariant fails in the code.  With `maxSize = 1`,
inserting the two distinct derived keys `""` and `"a"` leaves two live
entries: at capacity the code reads the oldest key `""` but the truthiness
guard `if (oldestKey)` is false for the empty string, so nothing is
evicted and the first-inserted entry survives. -/
theorem claim3_capacity_bug :
    (CompletionCache.set
        (CompletionCache.set (CompletionCache.empty 1 60000) 0 [] 0 ("x".toList))
        1 ("a".toList) 1 ("y".toList)).cache.length = 2 ∧
    (CompletionCache.set
        (CompletionCache.set (CompletionCache.empty 1 60000) 0 [] 0 ("x".toList))
        1 ("a".toList) 1 ("y".toList)).maxSize = 1 ∧
    (mapGet (CompletionCache.set
        (CompletionCache.set (CompletionCache.empty 1 60000) 0 [] 0 ("x".toList))
        1 ("a".toList) 1 ("y".toList)).cache []).isSome = true := by
  decide

/-- Claim C4: prefix-extension lookup.  Concretely, after
`set("Hello wor", 9, "ld, friend")`, a `getByPrefix("Hello world", 11)`
within `ttlMs` returns `", friend"`.  In general, on an exact-lookup miss,
whenever some live cached entry's key is a prefix of the current derived
key and its completion starts with the extra typed text, the lookup
returns the unconsumed suffix `completion[len(extraTyped):]` of a
qualifying entry (the first such entry in insertion order wins; the spec
leaves the choice among several qualifying entries unspecified). -/
theorem claim4_prefix_extension :
    (CompletionCache.getByPrefixLookup
        (CompletionCache.set (CompletionCache.empty 50 60000) 0 ("Hello wor".toList) 9
          ("ld, friend".toList)) 0 ("Hello world".toList) 11).1 =
      some (", friend".toList) ∧
    (∀ (c : CompletionCache) (now : Nat) (text : List Char) (pos : Nat)
        (ck : List Char) (e : CacheEntry),
      (c.cache.map Prod.fst).Nodup →
      (CompletionCache.get c now text pos).1 = none →
      (ck, e) ∈ c.cache →
      now - e.timestamp ≤ c.ttl →
      ck <+: generateKey text pos →
      (generateKey text pos).drop ck.length <+: e.completion →
      ∃ p ∈ c.cache, qualifies (generateKey text pos) now c.ttl p ∧
        (CompletionCache.getByPrefixLookup c now text pos).1 =
          some (p.2.completion.drop ((generateKey text pos).drop p.1.length).length)) := by
  constructor
  · decide
  · intro c now text pos ck e hnd hmiss hmem hlive hpre hext
    have hckne : ck ≠ generateKey text pos := by
      intro heq
      rcases get_none_cases c now text pos hmiss with ⟨hm, _⟩ | ⟨e2, hm, hexp, _⟩
      · have hs := mapGet_isSome_of_mem c.cache ck e hmem
        rw [heq, hm] at hs
        exact Bool.noConfusion hs
      · have hsome := mapGet_eq_some_of_mem_nodup c.cache ck e hnd hmem
        rw [heq, hm] at hsome
        injection hsome with h2
        rw [h2] at hexp
        omega
    have hcomp : e.completion ≠ [] := by
      intro hc0
      rw [hc0] at hext
      have h1 : (generateKey text pos).drop ck.length = [] := List.prefix_nil.mp hext
      obtain ⟨t, ht⟩ := hpre
      rw [← ht, List.drop_left] at h1
      rw [h1] at ht
      simp at ht
      exact hckne ht
    have hmem2 : (ck, e) ∈ (CompletionCache.get c now text pos).2.cache := by
      rcases get_none_cases c now text pos hmiss with ⟨_, heqc⟩ | ⟨e2, hm, hexp, heqc⟩
      · rw [heqc]
        exact hmem
      · rw [heqc]
        exact mem_mapDelete_of_ne _ _ _ _ hmem hckne
    have hq : qualifies (generateKey text pos) now c.ttl (ck, e) :=
      ⟨hlive, hpre, hcomp, hext⟩
    obtain ⟨p, hp, hqp, hscan⟩ := scanEntries_of_exists
      ((CompletionCache.get c now text pos).2.cache) (generateKey text pos) now c.ttl
      ⟨(ck, e), hmem2, hq⟩
    refine ⟨p, ?_, hqp, ?_⟩
    · rcases get_none_cases c now text pos hmiss with ⟨_, heqc⟩ | ⟨e2, hm, hexp, heqc⟩
      · rw [heqc] at hp
        exact hp
      · rw [heqc] at hp
        exact (mapDelete_sublist _ _).subset hp
    · simp only [CompletionCache.getByPrefixLookup, hmiss]
      exact hscan

/-- Claim C4, general part witnessed at the concrete "Hello world" run. -/
theorem claim4_prefix_extension_witness :
    ∃ p ∈ (CompletionCache.set (CompletionCache.empty 50 60000) 0 ("Hello wor".toList) 9
        ("ld, friend".toList)).cache,
      qualifies (generateKey ("Hello world".toList) 11) 0
        (CompletionCache.set (CompletionCache.empty 50 60000) 0 ("Hello wor".toList) 9
          ("ld, friend".toList)).ttl p ∧
      (CompletionCache.getByPrefixLookup
          (CompletionCache.set (CompletionCache.empty 50 60000) 0 ("Hello wor".toList) 9
            ("ld, friend".toList)) 0 ("Hello world".toList) 11).1 =
        some (p.2.completion.drop
          ((generateKey ("Hello world".toList) 11).drop p.1.length).length) :=
  claim4_prefix_extension.2
    (CompletionCache.set (CompletionCache.empty 50 60000) 0 ("Hello wor".toList) 9
      ("ld, friend".toList)) 0 ("Hello world".toList) 11 ("Hello wor".toList)
    { completion := "ld, friend".toList, timestamp := 0 }
    (by decide) (by decide) (by decide) (by decide) (by decide) (by decide)

/-- Claim C5: a `set` followed by a `get` with the same
`(text, cursorPosition)` within `ttlMs` returns exactly the stored
completion; once more than `ttlMs` has elapsed since the `set`, the `get`
returns absent and eagerly deletes the expired entry from the map on that
read. -/
theorem claim5_set_get_ttl (c : CompletionCache) (t0 t1 : Nat) (text : List Char)
    (pos : Nat) (comp : List Char) (hnd : (c.cache.map Prod.fst).Nodup) :
    (t1 - t0 ≤ c.ttl →
      (CompletionCache.get (CompletionCache.set c t0 text pos comp) t1 text pos).1 =
        some comp) ∧
    (c.ttl < t1 - t0 →
      (CompletionCache.get (CompletionCache.set c t0 text pos comp) t1 text pos).1 =
        none ∧
      mapGet (CompletionCache.get (CompletionCache.set c t0 text pos comp)
          t1 text pos).2.cache (generateKey text pos) = none) := by
  constructor
  · intro h
    exact get_after_set_key c t0 t1 text text pos pos comp rfl h
  · intro h
    have hget := get_expired (CompletionCache.set c t0 text pos comp) t1 text pos
      { completion := comp, timestamp := t0 } (mapGet_cacheSet_key c t0 text pos comp)
      (by rw [cacheSet_ttl]; exact h)
    rw [hget]
    refine ⟨rfl, ?_⟩
    show mapGet (mapDelete (CompletionCache.set c t0 text pos comp).cache
      (generateKey text pos)) (generateKey text pos) = none
    exact mapGet_mapDelete_self_nodup _ _ (nodup_keys_cacheSet c t0 text pos comp hnd)

/-- Claim C5, witnessed at a concrete run for each of the two time regimes. -/
theorem claim5_set_get_ttl_witness :
    (CompletionCache.get
        (CompletionCache.set (CompletionCache.empty 50 60000) 0 ("hello".toList) 5
          ("x".toList)) 100 ("hello".toList) 5).1 = some ("x".toList) ∧
    ((CompletionCache.get
        (CompletionCache.set (CompletionCache.empty 50 60000) 0 ("hello".toList) 5
          ("x".toList)) 70000 ("hello".toList) 5).1 = none ∧
      mapGet (CompletionCache.get
          (CompletionCache.set (CompletionCache.empty 50 60000) 0 ("hello".toList) 5
            ("x".toList)) 70000 ("hello".toList) 5).2.cache
        (generateKey ("hello".toList) 5) = none) :=
  ⟨(claim5_set_get_ttl (CompletionCache.empty 50 60000) 0 100 ("hello".toList) 5
      ("x".toList) (by decide)).1 (by decide),
   (claim5_set_get_ttl (CompletionCache.empty 50 60000) 0 70000 ("hello".toList) 5
      ("x".toList) (by decide)).2 (by decide)⟩

/-- Claim C6: when an evaluation passes the length guard and the
change/cooldown guard, and the character just before the cursor is a
sentence-ending character that differs from the trailing character of the
last observed text, `checkTrigger` fires immediately (no pause timer is
armed) and records the new `lastText` and `lastTriggerTime`. -/
theorem claim6_sentence_end_fires (cfg : TriggerConfig) (st : TriggerState)
    (now : Nat) (text : List Char) (pos : Nat) (c : Char)
    (hmin : cfg.minChars ≤ text.length)
    (hlast : (text.take pos).getLast? = some c)
    (hchanged : text ≠ st.lastText)
    (hsig : 3 < ((text.length : Int) - (st.lastText.length : Int)).natAbs ∨
      cfg.cooldown < now - st.lastTriggerTime)
    (hc : c ∈ ['.', '!', '?'])
    (hnew : st.lastText.getLast? ≠ some c) :
    (checkTrigger cfg st now text pos).1 = TriggerDecision.fireNow ∧
    (checkTrigger cfg st now text pos).2.lastText = text ∧
    (checkTrigger cfg st now text pos).2.lastTriggerTime = now ∧
    (checkTrigger cfg st now text pos).2.pauseTimer = none := by
  simp only [checkTrigger, hlast]
  rw [if_neg (by omega)]
  rw [if_neg (fun hor => Or.elim hor (fun hnc => hnc hchanged)
    (fun hand => Or.elim hsig hand.1 hand.2))]
  rw [if_pos ⟨hc, hnew⟩]
  exact ⟨rfl, rfl, rfl, rfl⟩

/-- Claim C6, witnessed at a concrete run ending in a freshly typed dot. -/
theorem claim6_sentence_end_witness :
    (checkTrigger
        { pauseThreshold := 500, minChars := 15, triggerAtBreakpoints := true,
          cooldown := 1000 }
        initialTriggerState 5 ("hello world abcd.".toList) 17).1 =
      TriggerDecision.fireNow ∧
    (checkTrigger
        { pauseThreshold := 500, minChars := 15, triggerAtBreakpoints := true,
          cooldown := 1000 }
        initialTriggerState 5 ("hello world abcd.".toList) 17).2.lastText =
      "hello world abcd.".toList ∧
    (checkTrigger
        { pauseThreshold := 500, minChars := 15, triggerAtBreakpoints := true,
          cooldown := 1000 }
        initialTriggerState 5 ("hello world abcd.".toList) 17).2.lastTriggerTime = 5 ∧
    (checkTrigger
        { pauseThreshold := 500, minChars := 15, triggerAtBreakpoints := true,
          cooldown := 1000 }
        initialTriggerState 5 ("hello world abcd.".toList) 17).2.pauseTimer = none :=
  claim6_sentence_end_fires
    { pauseThreshold := 500, minChars := 15, triggerAtBreakpoints := true,
      cooldown := 1000 }
    initialTriggerState 5 ("hello world abcd.".toList) 17 '.'
    (by decide) (by decide) (by decide) (Or.inl (by decide)) (by decide) (by decide)

/-- Claim C7: when the engine call fails, a cancellation failure
(`AbortError`) is suppressed silently — it records no error and leaves the
suggestion untouched — while every other failure clears the pending flag,
clears the suggestion, and records the error. -/
theorem claim7_failure_handling (s : OrchestratorState) (err : JSError) :
    (err.name = abortErrorName →
      (settleFailure s err).error = s.error ∧
      (settleFailure s err).completion = s.completion) ∧
    (err.name ≠ abortErrorName →
      (settleFailure s err).isLoading = false ∧
      (settleFailure s err).completion = none ∧
      (settleFailure s err).error = some err) := by
  constructor
  · intro h
    unfold settleFailure
    rw [if_neg (fun hne => hne h)]
    exact ⟨rfl, rfl⟩
  · intro h
    unfold settleFailure
    rw [if_pos h]
    exact ⟨rfl, rfl, rfl⟩

/-- Claim C7, witnessed on an `AbortError` and a `TypeError`. -/
theorem claim7_failure_handling_witness :
    ((settleFailure (initialOrchestratorState 50 60000)
        { name := "AbortError".toList, message := [] }).error =
      (initialOrchestratorState 50 60000).error ∧
     (settleFailure (initialOrchestratorState 50 60000)
        { name := "AbortError".toList, message := [] }).completion =
      (initialOrchestratorState 50 60000).completion) ∧
    ((settleFailure (initialOrchestratorState 50 60000)
        { name := "TypeError".toList, message := [] }).isLoading = false ∧
     (settleFailure (initialOrchestratorState 50 60000)
        { name := "TypeError".toList, message := [] }).completion = none ∧
     (settleFailure (initialOrchestratorState 50 60000)
        { name := "TypeError".toList, message := [] }).error =
      some { name := "TypeError".toList, message := [] }) :=
  ⟨(claim7_failure_handling (initialOrchestratorState 50 60000)
      { name := "AbortError".toList, message := [] }).1 (by decide),
   (claim7_failure_handling (initialOrchestratorState 50 60000)
      { name := "TypeError".toList, message := [] }).2 (by decide)⟩

/-- Claim C8: `getByPrefix` can return the empty string rather than absent.
After caching `"cd"` under the key `"ab"`, looking up `"abcd"` finds that
the extra typed text equals the whole completion, and the lookup returns
the non-absent empty-string suffix — an outcome distinct from a miss. -/
theorem claim8_empty_string_result :
    (CompletionCache.getByPrefixLookup
        (CompletionCache.set (CompletionCache.empty 50 60000) 0 ("ab".toList) 2
          ("cd".toList)) 0 ("abcd".toList) 4).1 = some [] ∧
    (CompletionCache.getByPrefixLookup
        (CompletionCache.set (CompletionCache.empty 50 60000) 0 ("ab".toList) 2
          ("cd".toList)) 0 ("abcd".toList) 4).1 ≠ none := by
  decide

/-- Claim C9, counterexample: a cache at capacity (`maxSize = 2`) whose
oldest-inserted key is the empty string; a `set` on the already-present,
non-oldest key `"a"` evicts nothing (the truthiness guard skips the empty
oldest key) and replaces in place, leaving 2 entries instead of the
claimed `maxSize - 1 = 1`. -/
theorem claim9_replacement_counterexample :
    (CompletionCache.set
        (CompletionCache.set (CompletionCache.empty 2 60000) 0 [] 0 ("x".toList))
        1 ("a".toList) 1 ("y".toList)).cache.length = 2 ∧
    (CompletionCache.set
        (CompletionCache.set (CompletionCache.empty 2 60000) 0 [] 0 ("x".toList))
        1 ("a".toList) 1 ("y".toList)).maxSize = 2 ∧
    (mapGet (CompletionCache.set
        (CompletionCache.set (CompletionCache.empty 2 60000) 0 [] 0 ("x".toList))
        1 ("a".toList) 1 ("y".toList)).cache ("a".toList)).isSome = true ∧
    (CompletionCache.set
        (CompletionCache.set (CompletionCache.empty 2 60000) 0 [] 0 ("x".toList))
        1 ("a".toList) 1 ("y".toList)).cache.head? =
      some ([], { completion := "x".toList, timestamp := 0 }) ∧
    (CompletionCache.set
        (CompletionCache.set
          (CompletionCache.set (CompletionCache.empty 2 60000) 0 [] 0 ("x".toList))
          1 ("a".toList) 1 ("y".toList))
        2 ("a".toList) 1 ("z".toList)).cache.length = 2 ∧
    (2 : Nat) ≠ 2 - 1 := by
  decide

/-- Claim C9 (amended): if the cache holds exactly `maxSize` entries, the
oldest-inserted key is non-empty, and `set` is called with a derived key
that is already present but differs from the oldest key, then the oldest
entry is evicted and the replacement happens in place, so the cache ends
the `set` holding `maxSize - 1` entries. -/
theorem claim9_replacement_amended (c : CompletionCache) (now : Nat)
    (text : List Char) (pos : Nat) (comp : List Char) (ok : List Char)
    (oe : CacheEntry)
    (hfull : c.cache.length = c.maxSize)
    (hhead : c.cache.head? = some (ok, oe))
    (hokne : ok ≠ [])
    (hkey : (mapGet c.cache (generateKey text pos)).isSome = true)
    (hne : generateKey text pos ≠ ok) :
    (CompletionCache.set c now text pos comp).cache.length + 1 = c.maxSize := by
  have hok : (mapGet c.cache ok).isSome = true := by
    cases hc : c.cache with
    | nil =>
      rw [hc] at hhead
      cases hhead
    | cons hd tl =>
      rw [hc, List.head?_cons] at hhead
      injection hhead with hhd
      subst hhd
      simp [mapGet]
  have hcontains : (mapGet (mapDelete c.cache ok) (generateKey text pos)).isSome =
      true := by
    rw [mapGet_mapDelete_ne _ _ _ (Ne.symm hne)]
    exact hkey
  simp only [CompletionCache.set, hhead]
  rw [if_pos hfull.ge, if_neg hokne, length_mapSet_of_isSome _ _ _ hcontains,
    length_mapDelete_of_isSome _ _ hok]
  exact hfull

/-- Claim C9 amended, witnessed at a concrete two-entry cache. -/
theorem claim9_replacement_witness :
    (CompletionCache.set
        (CompletionCache.set
          (CompletionCache.set (CompletionCache.empty 2 60000) 0 ("a".toList) 1
            ("p".toList)) 1 ("b".toList) 1 ("q".toList))
        2 ("b".toList) 1 ("r".toList)).cache.length + 1 =
      (CompletionCache.set
          (CompletionCache.set (CompletionCache.empty 2 60000) 0 ("a".toList) 1
            ("p".toList)) 1 ("b".toList) 1 ("q".toList)).maxSize :=
  claim9_replacement_amended
    (CompletionCache.set
      (CompletionCache.set (CompletionCache.empty 2 60000) 0 ("a".toList) 1
        ("p".toList)) 1 ("b".toList) 1 ("q".toList))
    2 ("b".toList) 1 ("r".toList) ("a".toList)
    { completion := "p".toList, timestamp := 0 }
    (by decide) (by decide) (by decide) (by decide) (by decide)

/-- Claim C10: cache keys are the whitespace-trimmed last-200-character
window before the cursor, so a `get` on any observation whose window
differs from the stored one only by leading/trailing JavaScript whitespace
— both windows are the same core text surrounded by (possibly empty)
whitespace, in either direction — returns the same completion. -/
theorem claim10_whitespace_invariance (c : CompletionCache) (t0 t1 : Nat)
    (text text2 : List Char) (pos pos2 : Nat) (comp : List Char)
    (core ws1 ws1' ws2 ws2' : List Char)
    (hws1 : ∀ x ∈ ws1, isJsSpace x = true)
    (hws1' : ∀ x ∈ ws1', isJsSpace x = true)
    (hws2 : ∀ x ∈ ws2, isJsSpace x = true)
    (hws2' : ∀ x ∈ ws2', isJsSpace x = true)
    (hwin1 : windowBefore text pos = ws1 ++ core ++ ws1')
    (hwin2 : windowBefore text2 pos2 = ws2 ++ core ++ ws2')
    (httl : t1 - t0 ≤ c.ttl) :
    (CompletionCache.get (CompletionCache.set c t0 text pos comp) t1 text2 pos2).1 =
      some comp := by
  apply get_after_set_key c t0 t1 text text2 pos pos2 comp _ httl
  unfold generateKey
  rw [hwin1, hwin2, trim_surrounded ws1 core ws1' hws1 hws1',
    trim_surrounded ws2 core ws2' hws2 hws2']

/-- Claim C10, witnessed in the whitespace-removal direction: the cached
window is `"hello "` (trailing space) and the lookup window is the bare
`"hello"`. -/
theorem claim10_whitespace_invariance_witness :
    (CompletionCache.get
        (CompletionCache.set (CompletionCache.empty 50 60000) 0 ("hello ".toList) 6
          ("x".toList)) 3 ("hello".toList) 5).1 = some ("x".toList) :=
  claim10_whitespace_invariance (CompletionCache.empty 50 60000) 0 3
    ("hello ".toList) ("hello".toList) 6 5 ("x".toList) ("hello".toList)
    [] [' '] [] []
    (by decide) (by decide) (by decide) (by decide)
    (by decide) (by decide) (by decide)
